import Mathlib

/-
Verification of the AgentRunbooks control plane against its specification.

The definitions below are a shallow embedding of the Python sources:
  gateway/app/rbac.py, gateway/app/security.py, gateway/app/routers/approvals.py,
  gateway/app/audit.py, gateway/app/routers/audit.py, gateway/app/policy_engine.py,
  orchestrator/app/utils.py, orchestrator/app/activities.py, orchestrator/app/workflows.py.

External collaborators (SHA-256/HMAC digests, the jsonschema validator, the
schema files on disk, adapters, the database clock) are passed in as function
parameters; everything that the repository itself computes is translated
directly.  Machine integers are modelled as Int/Nat, monetary amounts and
scores as rationals, timestamps as integer milliseconds.
-/

namespace AgentRunbooks

/-! ### RBAC — gateway/app/rbac.py

`PERMISSIONS` is the literal role → ((action, resource) → allowed) matrix;
`check_permission` mirrors `_check_permission` including its wildcard fallback
order, and `authorize` mirrors the role-binding loop of `authorize`'s inner
`_authorize` (one subject, tenant-level bindings given as the list of bound
roles in iteration order) together with the SRE+OnCall special case, which in
the source consults the `roles_checked` set accumulated up to the first
granting binding. -/

def rolePermissions (role : String) : List ((String × String) × Bool) :=
  if role = "Admin" then
    [(("*", "*"), true), (("write", "project"), true), (("write", "role_binding"), true),
     (("read", "project"), true), (("read", "role_binding"), true)]
  else if role = "SRE" then
    [(("write", "runbook"), true), (("write", "policy"), true), (("read", "runbook"), true),
     (("read", "policy"), true), (("read", "run"), true), (("execute", "run"), true),
     (("approve", "approval"), false), (("read", "project"), true)]
  else if role = "OnCall" then
    [(("read", "*"), true), (("approve", "approval"), true)]
  else if role = "Viewer" then
    [(("read", "*"), true)]
  else []

def check_permission (role action resource : String) : Bool :=
  if role = "Admin" then true
  else
    let perms := rolePermissions role
    match perms.lookup (action, resource) with
    | some b => b
    | none =>
      match perms.lookup ("*", resource) with
      | some b => b
      | none =>
        match perms.lookup (action, "*") with
        | some b => b
        | none =>
          match perms.lookup ("*", "*") with
          | some b => b
          | none => false

/-- The binding loop of `_authorize`: walk the subject's bindings in order,
skipping roles already checked, stopping at the first role whose permission
check succeeds.  Returns `(allowed, roles_checked)`. -/
def authorizeLoop (action resource : String) : List String → List String → Bool × List String
  | [], checked => (false, checked)
  | r :: rest, checked =>
    if r ∈ checked then authorizeLoop action resource rest checked
    else if check_permission r action resource then (true, r :: checked)
    else authorizeLoop action resource rest (r :: checked)

def authorize (action resource : String) (bindings : List String) : Bool :=
  if action = "approve" ∧ resource = "approval" then
    (authorizeLoop action resource bindings []).1 ||
      ("SRE" ∈ (authorizeLoop action resource bindings []).2 &&
        "OnCall" ∈ (authorizeLoop action resource bindings []).2)
  else
    (authorizeLoop action resource bindings []).1

theorem check_permission_approve (r : String) :
    check_permission r "approve" "approval" = (r = "Admin" || r = "OnCall") := by
  unfold check_permission rolePermissions
  split_ifs with h1 h2 h3 h4
  · subst h1; decide
  · subst h2; decide
  · subst h3; decide
  · subst h4; decide
  · simp [List.lookup, h1, h3]

theorem authorizeLoop_fst (action resource : String) (bs : List String) (checked : List String) :
    (authorizeLoop action resource bs checked).1 = true ↔
      ∃ r, r ∈ bs ∧ r ∉ checked ∧ check_permission r action resource = true := by
  induction bs generalizing checked with
  | nil => simp [authorizeLoop]
  | cons b rest ih =>
    simp only [authorizeLoop]
    split_ifs with hmem hperm
    · rw [ih]
      constructor
      · rintro ⟨r, hr, hnc, hp⟩
        exact ⟨r, List.mem_cons_of_mem b hr, hnc, hp⟩
      · rintro ⟨r, hr, hnc, hp⟩
        rcases List.mem_cons.mp hr with rfl | hr
        · exact absurd hmem hnc
        · exact ⟨r, hr, hnc, hp⟩
    · constructor
      · intro _
        exact ⟨b, List.mem_cons_self b rest, hmem, hperm⟩
      · intro _
        rfl
    · rw [ih]
      have hperm' : check_permission b action resource = false := by
        simpa using hperm
      constructor
      · rintro ⟨r, hr, hnc, hp⟩
        exact ⟨r, List.mem_cons_of_mem b hr, fun hc => hnc (List.mem_cons_of_mem b hc), hp⟩
      · rintro ⟨r, hr, hnc, hp⟩
        rcases List.mem_cons.mp hr with rfl | hr
        · rw [hperm'] at hp; exact absurd hp Bool.false_ne_true
        · refine ⟨r, hr, fun hc => ?_, hp⟩
          rcases List.mem_cons.mp hc with rfl | hc
          · rw [hperm'] at hp; exact Bool.false_ne_true hp
          · exact hnc hc

theorem authorizeLoop_snd (action resource : String) (bs : List String) (checked : List String)
    (h : (authorizeLoop action resource bs checked).1 = false) :
    ∀ r, r ∈ (authorizeLoop action resource bs checked).2 ↔ (r ∈ checked ∨ r ∈ bs) := by
  induction bs generalizing checked with
  | nil => simp [authorizeLoop]
  | cons b rest ih =>
    intro r
    simp only [authorizeLoop] at h ⊢
    split_ifs at h ⊢ with hmem hperm
    · rw [ih checked h r, List.mem_cons]
      constructor
      · rintro (h' | h')
        · exact .inl h'
        · exact .inr (.inr h')
      · rintro (h' | rfl | h')
        · exact .inl h'
        · exact .inl hmem
        · exact .inr h'
    · rw [ih (b :: checked) h r, List.mem_cons, List.mem_cons]
      constructor
      · rintro (h' | h')
        · rcases h' with rfl | h'
          · exact .inr (.inl rfl)
          · exact .inl h'
        · exact .inr (.inr h')
      · rintro (h' | rfl | h')
        · exact .inl (.inr h')
        · exact .inl (.inl rfl)
        · exact .inr h'

theorem authorize_approve_iff (bindings : List String) :
    authorize "approve" "approval" bindings = true ↔
      ("Admin" ∈ bindings ∨ "OnCall" ∈ bindings) := by
  unfold authorize
  rw [if_pos ⟨rfl, rfl⟩]
  rcases hl : (authorizeLoop "approve" "approval" bindings []).1 with _ | _
  · have hsnd := authorizeLoop_snd "approve" "approval" bindings [] hl
    have hfst := authorizeLoop_fst "approve" "approval" bindings []
    rw [hl] at hfst
    simp only [Bool.false_or, Bool.and_eq_true, decide_eq_true_eq]
    constructor
    · rintro ⟨_, ho⟩
      have ho' := (hsnd "OnCall").mp ho
      simp only [List.not_mem_nil, false_or] at ho'
      exact .inr ho'
    · rintro (h | h)
      · exact absurd (hfst.mpr ⟨"Admin", h, by simp, by rw [check_permission_approve]; simp⟩)
          Bool.false_ne_true
      · exact absurd (hfst.mpr ⟨"OnCall", h, by simp, by rw [check_permission_approve]; simp⟩)
          Bool.false_ne_true
  · simp only [Bool.true_or, true_iff]
    have hfst := authorizeLoop_fst "approve" "approval" bindings []
    rw [hl] at hfst
    obtain ⟨r, hr, -, hp⟩ := hfst.mp rfl
    rw [check_permission_approve] at hp
    have hp' : r = "Admin" ∨ r = "OnCall" := by simpa using hp
    rcases hp' with rfl | rfl
    · exact .inl hr
    · exact .inr hr

/-- C3: `approve approval` is granted to a subject iff it holds role `Admin`,
or role `OnCall`, or both `SRE` and `OnCall`; in particular a subject whose
only role is `SRE` is denied. -/
theorem claim_C3 :
    (∀ bindings : List String,
      authorize "approve" "approval" bindings = true ↔
        ("Admin" ∈ bindings ∨ "OnCall" ∈ bindings ∨
          ("SRE" ∈ bindings ∧ "OnCall" ∈ bindings))) ∧
    authorize "approve" "approval" ["SRE"] = false := by
  constructor
  · intro bindings
    rw [authorize_approve_iff]
    constructor
    · rintro (h | h)
      · exact .inl h
      · exact .inr (.inl h)
    · rintro (h | h | ⟨_, h⟩)
      · exact .inl h
      · exact .inr h
      · exact .inr h
  · decide

/-! ### Approval tokens — gateway/app/security.py and gateway/app/routers/approvals.py

`verify_approval` mirrors the source exactly: it checks only that an expiry
exists, that it is not in the past, that the supplied token splits into two
dot-separated parts, and that the stored `sig` is non-empty — it never
compares the token against the stored signature (the source carries a
`TODO: Use stored nonce for signature verification`).  `sign_approval` issues
tokens of the form `nonce ++ "." ++ sig.take 16`, so a token matches the
stored `sig` exactly when its second part equals the first 16 hex digits of
`sig`; `token_matches_sig` expresses that check.

Times are integer milliseconds; `now > e` is the source's
`datetime.now(timezone.utc) > expires_at`. -/

def splitDotsAux : List Char → List Char → List String
  | acc, [] => [String.mk acc.reverse]
  | acc, c :: rest =>
    if c = '.' then String.mk acc.reverse :: splitDotsAux [] rest
    else splitDotsAux (c :: acc) rest

/-- Python's `token.split(".")`. -/
def splitDots (s : String) : List String :=
  splitDotsAux [] s.toList

def strTake (s : String) (n : Nat) : String :=
  String.mk (s.toList.take n)

def verify_approval (token : String) (sig : String) (expires_at : Option Int) (now : Int) : Bool :=
  match expires_at with
  | none => false
  | some e =>
    if now > e then false
    else if (splitDots token).length ≠ 2 then false
    else sig.length > 0

/-- The token issued by `sign_approval` is `f"{nonce}.{sig[:16]}"`; a supplied
token matches the stored `sig` when its part after the dot equals
`sig.take 16`. -/
def token_matches_sig (token sig : String) : Bool :=
  match splitDots token with
  | [_, s] => s = strTake sig 16
  | _ => false

structure ApprovalRow where
  approved : Bool
  sig : Option String
  sig_expires_at : Option Int
  token : Option String
deriving DecidableEq, Repr

inductive ApproveOutcome
  | alreadyApproved
  | badRequestTokenRequired
  | forbidden (detail : String)
  | ok
deriving DecidableEq, Repr

/-- Python truthiness of an optional string (`None` and `""` are falsy). -/
def optTruthy : Option String → Bool
  | none => false
  | some s => s ≠ ""

/-- `approve_approval` from gateway/app/routers/approvals.py, after the
approval row has been fetched (the 404 path is out of scope). -/
def approve_approval (a : ApprovalRow) (payload_token : Option String) (now : Int) :
    ApproveOutcome × ApprovalRow :=
  if a.approved then (.alreadyApproved, a)
  else if optTruthy a.sig && a.sig_expires_at.isSome then
    if !optTruthy payload_token then (.badRequestTokenRequired, a)
    else if !verify_approval (payload_token.getD "") (a.sig.getD "") a.sig_expires_at now then
      (.forbidden "invalid or expired token", a)
    else (.ok, { a with approved := true })
  else if optTruthy a.token && decide (payload_token ≠ a.token) then
    (.forbidden "invalid token", a)
  else (.ok, { a with approved := true })

/-- A pending approval whose stored signature is a 32-hex-digit HMAC digest
expiring at t = 1000. -/
def c2row : ApprovalRow :=
  ⟨false, some "0123456789abcdef0123456789abcdef", some 1000, none⟩

/-- C2 (code bug): the expiry and already-approved checks behave as claimed —
an approval 1ms past expiry is rejected and an approved row is left unchanged
— but the token-vs-sig check is missing: a token `"wrong.tok"` that does not
match the stored `sig` (its part after the dot differs from `sig.take 16`) is
accepted and `approved` is set, contradicting the claim that a mismatching
token is rejected. -/
theorem claim_C2 :
    token_matches_sig "wrong.tok" (c2row.sig.getD "") = false
    ∧ (approve_approval c2row (some "wrong.tok") 500).1 = .ok
    ∧ (approve_approval c2row (some "wrong.tok") 500).2.approved = true
    ∧ (approve_approval c2row (some "wrong.tok") 1001).1 =
        .forbidden "invalid or expired token"
    ∧ (approve_approval { c2row with approved := true } (some "anything") 500).1 =
        .alreadyApproved
    ∧ (approve_approval { c2row with approved := true } (some "anything") 500).2 =
        { c2row with approved := true } := by
  decide

/-! ### Step records — orchestrator/app/activities.py `record_step`

`record_step` looks up (or creates) the step row and then applies the given
fields; a `"status"` field is coerced through `StepStatus(value)` with any
unrecognised value silently replaced by `PENDING`.  Nothing guards against
overwriting a terminal status. -/

inductive StepStatus
  | pending
  | running
  | succeeded
  | failed
  | skipped
  | compensated
deriving DecidableEq, Repr

def statusOfString : String → Option StepStatus
  | "pending" => some .pending
  | "running" => some .running
  | "succeeded" => some .succeeded
  | "failed" => some .failed
  | "skipped" => some .skipped
  | "compensated" => some .compensated
  | _ => none

def isTerminal : StepStatus → Bool
  | .succeeded | .failed | .skipped | .compensated => true
  | _ => false

structure StepRow where
  name : String
  status : StepStatus
  started_at : Option Int
  ended_at : Option Int
deriving DecidableEq, Repr

structure StepFields where
  status : Option String
  started_at : Option Int
  ended_at : Option Int
deriving DecidableEq, Repr

def record_step (row : Option StepRow) (name : String) (fields : StepFields) (now : Int) :
    StepRow :=
  let step0 : StepRow := row.getD ⟨name, .pending, none, none⟩
  let step1 : StepRow :=
    match fields.status with
    | none => step0
    | some s => { step0 with status := (statusOfString s).getD .pending }
  let step2 : StepRow :=
    match fields.started_at with
    | none => step1
    | some v => { step1 with started_at := some v }
  let step3 : StepRow :=
    match fields.ended_at with
    | none => step2
    | some v => { step2 with ended_at := some v }
  let step4 : StepRow :=
    if fields.status = some "running" then
      { step3 with started_at := step3.started_at.getD now |> some }
    else step3
  if fields.status = some "succeeded" ∨ fields.status = some "failed" ∨
      fields.status = some "skipped" ∨ fields.status = some "compensated" then
    { step4 with ended_at := step4.ended_at.getD now |> some }
  else step4

/-! ### Idempotency keys — orchestrator/app/utils.py `make_idempotency_key`
and orchestrator/app/activities.py `compensate`.

`make_idempotency_key(run_id, step_name, args)` is
`run_id ++ ":" ++ step_name ++ ":" ++ sha256hex(json.dumps(args, sort_keys=True))`.
SHA-256 is external and passed as a parameter; `json.dumps` with
`sort_keys=True` (and its default `", "`/`": "` separators) is embedded over
a JSON value tree, sorting object keys recursively.  String escaping inside
literals is not modelled (keys and strings are emitted verbatim). -/

inductive JVal
  | nullV
  | boolV (b : Bool)
  | intV (n : Int)
  | strV (s : String)
  | arrV (l : List JVal)
  | objV (l : List (String × JVal))

def pairLE (p q : String × JVal) : Prop := p.1 ≤ q.1

instance : DecidableRel pairLE := fun p q => inferInstanceAs (Decidable (p.1 ≤ q.1))

instance : IsTotal (String × JVal) pairLE := ⟨fun a b => le_total a.1 b.1⟩

instance : IsTrans (String × JVal) pairLE := ⟨fun _ _ _ => le_trans⟩

mutual

def sortAll : JVal → JVal
  | .nullV => .nullV
  | .boolV b => .boolV b
  | .intV n => .intV n
  | .strV s => .strV s
  | .arrV l => .arrV (sortAllList l)
  | .objV l => .objV (List.insertionSort pairLE (sortAllPairs l))

def sortAllList : List JVal → List JVal
  | [] => []
  | v :: rest => sortAll v :: sortAllList rest

def sortAllPairs : List (String × JVal) → List (String × JVal)
  | [] => []
  | (k, v) :: rest => (k, sortAll v) :: sortAllPairs rest

end

mutual

def encodeJVal : JVal → String
  | .nullV => "null"
  | .boolV b => if b then "true" else "false"
  | .intV n => toString n
  | .strV s => "\"" ++ s ++ "\""
  | .arrV l => "[" ++ encodeArr l ++ "]"
  | .objV l => "\x7b" ++ encodeObj l ++ "\x7d"

def encodeArr : List JVal → String
  | [] => ""
  | [v] => encodeJVal v
  | v :: rest => encodeJVal v ++ ", " ++ encodeArr rest

def encodeObj : List (String × JVal) → String
  | [] => ""
  | [(k, v)] => "\"" ++ k ++ "\": " ++ encodeJVal v
  | (k, v) :: rest => "\"" ++ k ++ "\": " ++ encodeJVal v ++ ", " ++ encodeObj rest

end

/-- `json.dumps(v, sort_keys=True)` with default separators. -/
def jsonDumpsSorted (v : JVal) : String :=
  encodeJVal (sortAll v)

def make_idempotency_key (sha256hex : String → String) (run_id step_name : String)
    (args : List (String × JVal)) : String :=
  run_id ++ ":" ++ step_name ++ ":" ++ sha256hex (jsonDumpsSorted (.objV args))

structure ToolCall where
  name : String
  input : List (String × JVal)
  dryRun : Bool
  idempotencyKey : String

/-- The `ToolCall` built by the `compensate` activity: same tool-call shape as
`invoke_adapter`, but the idempotency key is the step's key with `"-comp"`
appended. -/
def compensate_call (tool : String) (args : List (String × JVal)) (dry_run : Bool)
    (idempotency_key : String) : ToolCall :=
  ⟨tool, args, dry_run, idempotency_key ++ "-comp"⟩

theorem sortAllPairs_eq_map (l : List (String × JVal)) :
    sortAllPairs l = l.map (fun p => (p.1, sortAll p.2)) := by
  induction l with
  | nil => rfl
  | cons p rest ih => cases p; simp [sortAllPairs, ih]

theorem sortedPairs_unique (l1 l2 : List (String × JVal)) (hperm : l1.Perm l2)
    (hkeys : (l1.map Prod.fst).Nodup) :
    List.insertionSort pairLE l1 = List.insertionSort pairLE l2 := by
  have hp : (List.insertionSort pairLE l1).Perm (List.insertionSort pairLE l2) :=
    (List.perm_insertionSort pairLE l1).trans
      (hperm.trans (List.perm_insertionSort pairLE l2).symm)
  have hkeys2 : (l2.map Prod.fst).Nodup := ((hperm.map Prod.fst).nodup_iff).mp hkeys
  have hs1 : List.Sorted pairLE (List.insertionSort pairLE l1) :=
    List.sorted_insertionSort pairLE l1
  have hs2 : List.Sorted pairLE (List.insertionSort pairLE l2) :=
    List.sorted_insertionSort pairLE l2
  have hn1 : ((List.insertionSort pairLE l1).map Prod.fst).Nodup :=
    (((List.perm_insertionSort pairLE l1).map Prod.fst).nodup_iff).mpr hkeys
  have hn2 : ((List.insertionSort pairLE l2).map Prod.fst).Nodup :=
    (((List.perm_insertionSort pairLE l2).map Prod.fst).nodup_iff).mpr hkeys2
  have hlt1 : (List.insertionSort pairLE l1).Pairwise (fun p q => p.1 < q.1) :=
    (hs1.and (List.pairwise_map.mp hn1)).imp (fun h => lt_of_le_of_ne h.1 h.2)
  have hlt2 : (List.insertionSort pairLE l2).Pairwise (fun p q => p.1 < q.1) :=
    (hs2.and (List.pairwise_map.mp hn2)).imp (fun h => lt_of_le_of_ne h.1 h.2)
  haveI : IsAntisymm (String × JVal) (fun p q => p.1 < q.1) :=
    ⟨fun _ _ h1 h2 => absurd (lt_trans h1 h2) (lt_irrefl _)⟩
  exact List.eq_of_perm_of_sorted hp hlt1 hlt2

/-- C6: the idempotency key is a deterministic function of
`(run_id, step_name, args)` over a sorted-key canonical encoding of `args`:
two argument dicts that are equal up to key order give the identical key, and
the compensation call for a step uses exactly the step's key with `"-comp"`
appended. -/
theorem claim_C6 (sha256hex : String → String) (run_id step_name : String)
    (a1 a2 : List (String × JVal)) (hperm : a1.Perm a2)
    (hkeys : (a1.map Prod.fst).Nodup) :
    make_idempotency_key sha256hex run_id step_name a1 =
      make_idempotency_key sha256hex run_id step_name a2 ∧
    ∀ tool args dry_run,
      (compensate_call tool args dry_run
          (make_idempotency_key sha256hex run_id step_name a1)).idempotencyKey =
        make_idempotency_key sha256hex run_id step_name a1 ++ "-comp" := by
  constructor
  · have hsort : sortAll (.objV a1) = sortAll (.objV a2) := by
      simp only [sortAll, sortAllPairs_eq_map]
      congr 1
      apply sortedPairs_unique
      · exact hperm.map _
      · rw [List.map_map]
        exact hkeys
    unfold make_idempotency_key jsonDumpsSorted
    rw [hsort]
  · intro tool args dry_run
    rfl

theorem claim_C6_witness :
    make_idempotency_key (fun s => s) "r1" "s1" [("b", .intV 1), ("a", .strV "x")] =
      make_idempotency_key (fun s => s) "r1" "s1" [("a", .strV "x"), ("b", .intV 1)] :=
  (claim_C6 (fun s => s) "r1" "s1" _ _ (List.Perm.swap _ _ _) (by decide)).1

/-! ### Audit chain — gateway/app/security.py `hmac_hash`,
gateway/app/audit.py `write_audit`, gateway/app/routers/audit.py
`verify_audit_chain`.

`hm` stands for HMAC-SHA256 keyed with `AUDIT_HMAC_SECRET`, and `canon` for
`json.dumps(record, sort_keys=True, separators=(",", ":"))` of the
seven-field record dict (the record carries neither `hash`, `prev_hash`,
`id` nor `ts`); both are digest/encoding functions external to the chain
logic and are passed as parameters.  A chain is the list of one tenant's
rows in `ts` order, so the `write_audit` query for the latest entry of the
tenant is the last element. -/

structure AuditRecord where
  actor_type : String
  actor_id : String
  tenant_id : Option String
  action : String
  resource_type : String
  resource_id : Option String
  payload : Option String
deriving DecidableEq, Repr

/-- `hmac_hash` from gateway/app/security.py: prepend `prev_hash` when it is
truthy (non-null, non-empty), then digest. -/
def hmac_hash (hm : String → String) (canon : AuditRecord → String)
    (prev_hash : Option String) (record : AuditRecord) : String :=
  match prev_hash with
  | some p => if p ≠ "" then hm (p ++ canon record) else hm (canon record)
  | none => hm (canon record)

structure AuditLogRow where
  id : Nat
  record : AuditRecord
  prev_hash : Option String
  hash : String
deriving DecidableEq, Repr

/-- The `prev_hash` chosen by `write_audit`: the latest entry's hash for the
tenant, looked up only when `tenant_id` is truthy. -/
def write_prev (chain : List AuditLogRow) (r : AuditRecord) : Option String :=
  if optTruthy r.tenant_id then (chain.getLast?).map (·.hash) else none

/-- `write_audit`: chain on the previous tenant hash and append. -/
def write_audit (hm : String → String) (canon : AuditRecord → String)
    (chain : List AuditLogRow) (id : Nat) (r : AuditRecord) : List AuditLogRow :=
  chain ++ [⟨id, r, write_prev chain r, hmac_hash hm canon (write_prev chain r) r⟩]

inductive VerifyResult
  | ok (verified_count : Nat)
  | broken (broken_at : Nat) (log_id : Nat) (expected_hash actual_hash : String)
deriving DecidableEq, Repr

/-- The verification loop of `verify_audit_chain`: re-derive each hash with a
running `prev_hash`, reporting the first stored hash that differs. -/
def verifyFrom (hm : String → String) (canon : AuditRecord → String) :
    Option String → Nat → List AuditLogRow → VerifyResult
  | _, idx, [] => .ok idx
  | prev, idx, l :: rest =>
    let expected := hmac_hash hm canon prev l.record
    if l.hash ≠ expected then .broken idx l.id expected l.hash
    else verifyFrom hm canon (some l.hash) (idx + 1) rest

def verify_audit_chain (hm : String → String) (canon : AuditRecord → String)
    (logs : List AuditLogRow) : VerifyResult :=
  verifyFrom hm canon none 0 logs

def build_audit_chain (hm : String → String) (canon : AuditRecord → String)
    (entries : List (Nat × AuditRecord)) : List AuditLogRow :=
  entries.foldl (fun c e => write_audit hm canon c e.1 e.2) []

/-- The hash of the entry preceding index `i` (none for the first entry). -/
def chainPrev (chain : List AuditLogRow) (i : Nat) : Option String :=
  if i = 0 then none else (chain.get? (i - 1)).map (·.hash)

/-- Running `prev` seen by the verifier at index `i` when it started with
`prev`. -/
def prevAt (prev : Option String) (chain : List AuditLogRow) (i : Nat) : Option String :=
  if i = 0 then prev else (chain.get? (i - 1)).map (·.hash)

def lastHash (prev : Option String) (c : List AuditLogRow) : Option String :=
  match c.getLast? with
  | some l => some l.hash
  | none => prev

/-- Flip the payload of a stored row, leaving its stored hash in place. -/
def tamper_payload (row : AuditLogRow) (p : Option String) : AuditLogRow :=
  { row with record := { row.record with payload := p } }

theorem build_audit_chain_snoc (hm : String → String) (canon : AuditRecord → String)
    (es : List (Nat × AuditRecord)) (e : Nat × AuditRecord) :
    build_audit_chain hm canon (es ++ [e]) =
      write_audit hm canon (build_audit_chain hm canon es) e.1 e.2 := by
  simp [build_audit_chain, List.foldl_append]

theorem lastHash_cons (prev : Option String) (l : AuditLogRow) (rest : List AuditLogRow) :
    lastHash prev (l :: rest) = lastHash (some l.hash) rest := by
  cases rest with
  | nil => rfl
  | cons r rs =>
    cases hg : (r :: rs).getLast? with
    | none => simp [List.getLast?] at hg
    | some x => simp [lastHash, List.getLast?_cons_cons, hg]

theorem verifyFrom_snoc (hm : String → String) (canon : AuditRecord → String)
    (c : List AuditLogRow) (prev : Option String) (idx : Nat) (row : AuditLogRow)
    (h : verifyFrom hm canon prev idx c = .ok (idx + c.length)) :
    verifyFrom hm canon prev idx (c ++ [row]) =
      if row.hash = hmac_hash hm canon (lastHash prev c) row.record
      then .ok (idx + c.length + 1)
      else .broken (idx + c.length) row.id
        (hmac_hash hm canon (lastHash prev c) row.record) row.hash := by
  induction c generalizing prev idx with
  | nil =>
    simp only [List.nil_append, verifyFrom, List.length_nil, Nat.add_zero, lastHash]
    by_cases hh : row.hash = hmac_hash hm canon prev row.record
    · simp [hh]
    · simp [hh]
  | cons l rest ih =>
    simp only [verifyFrom, List.length_cons] at h
    by_cases hh : l.hash = hmac_hash hm canon prev l.record
    · have h' : verifyFrom hm canon (some l.hash) (idx + 1) rest =
          .ok ((idx + 1) + rest.length) := by
        rw [if_neg (by simpa using hh)] at h
        rw [h]
        congr 1
        omega
      have hstep : verifyFrom hm canon prev idx ((l :: rest) ++ [row]) =
          verifyFrom hm canon (some l.hash) (idx + 1) (rest ++ [row]) := by
        show (if l.hash ≠ hmac_hash hm canon prev l.record then
            VerifyResult.broken idx l.id (hmac_hash hm canon prev l.record) l.hash
          else verifyFrom hm canon (some l.hash) (idx + 1) (rest ++ [row])) = _
        rw [if_neg (by simpa using hh)]
      rw [hstep, ih (some l.hash) (idx + 1) h', lastHash_cons]
      by_cases hrow : row.hash = hmac_hash hm canon (lastHash (some l.hash) rest) row.record
      · rw [if_pos hrow, if_pos hrow]
        congr 1
        simp only [List.length_cons]
        omega
      · rw [if_neg hrow, if_neg hrow]
        congr 1
        simp only [List.length_cons]
        omega
    · rw [if_pos (by simpa using hh)] at h
      exact absurd h (by simp)

theorem lastHash_none_eq (c : List AuditLogRow) :
    lastHash none c = (c.getLast?).map (·.hash) := by
  cases hc : c.getLast? <;> simp [lastHash, hc]

theorem verify_build_ok (hm : String → String) (canon : AuditRecord → String)
    (es : List (Nat × AuditRecord))
    (ht : ∀ e ∈ es, optTruthy e.2.tenant_id = true) :
    verifyFrom hm canon none 0 (build_audit_chain hm canon es) =
      .ok (build_audit_chain hm canon es).length := by
  induction es using List.reverseRecOn with
  | nil => rfl
  | append_singleton es e ih =>
    have ht' : ∀ x ∈ es, optTruthy x.2.tenant_id = true :=
      fun x hx => ht x (by simp [hx])
    have hte : optTruthy e.2.tenant_id = true := ht e (by simp)
    rw [build_audit_chain_snoc]
    unfold write_audit
    have hwp : write_prev (build_audit_chain hm canon es) e.2 =
        lastHash none (build_audit_chain hm canon es) := by
      rw [write_prev, if_pos hte, lastHash_none_eq]
    have hok := verifyFrom_snoc hm canon (build_audit_chain hm canon es) none 0
      ⟨e.1, e.2, write_prev (build_audit_chain hm canon es) e.2,
        hmac_hash hm canon (write_prev (build_audit_chain hm canon es) e.2) e.2⟩
      (by simpa using ih ht')
    rw [hok, if_pos (by rw [hwp])]
    simp

theorem build_invariant (hm : String → String) (canon : AuditRecord → String)
    (es : List (Nat × AuditRecord))
    (ht : ∀ e ∈ es, optTruthy e.2.tenant_id = true) :
    ∀ j row, (build_audit_chain hm canon es).get? j = some row →
      row.prev_hash = chainPrev (build_audit_chain hm canon es) j ∧
      row.hash = hmac_hash hm canon row.prev_hash row.record := by
  induction es using List.reverseRecOn with
  | nil => intro j row h; simp [build_audit_chain] at h
  | append_singleton es e ih =>
    have ht' : ∀ x ∈ es, optTruthy x.2.tenant_id = true :=
      fun x hx => ht x (by simp [hx])
    have hte : optTruthy e.2.tenant_id = true := ht e (by simp)
    intro j row h
    rw [build_audit_chain_snoc] at h ⊢
    unfold write_audit at h ⊢
    set c := build_audit_chain hm canon es with hc
    rcases lt_trichotomy j c.length with hj | hj | hj
    · rw [List.get?_append hj] at h
      have hcp : chainPrev (c ++ [⟨e.1, e.2, write_prev c e.2,
          hmac_hash hm canon (write_prev c e.2) e.2⟩]) j = chainPrev c j := by
        unfold chainPrev
        rcases Nat.eq_zero_or_pos j with rfl | hpos
        · simp
        · rw [if_neg (Nat.pos_iff_ne_zero.mp hpos), if_neg (Nat.pos_iff_ne_zero.mp hpos),
            List.get?_append (by omega)]
      rw [hcp]
      exact ih ht' j row h
    · subst hj
      rw [List.get?_concat_length] at h
      injection h with h
      subst h
      refine ⟨?_, rfl⟩
      show write_prev c e.2 = chainPrev _ c.length
      rw [write_prev, if_pos hte]
      unfold chainPrev
      rcases Nat.eq_zero_or_pos c.length with hzero | hpos
      · rw [if_pos hzero, List.length_eq_zero.mp hzero]
        rfl
      · rw [if_neg (Nat.pos_iff_ne_zero.mp hpos), List.get?_append (by omega),
          List.getLast?_eq_get? c]
    · have hnone : (c ++ [(⟨e.1, e.2, write_prev c e.2,
          hmac_hash hm canon (write_prev c e.2) e.2⟩ : AuditLogRow)]).get? j = none :=
        List.get?_eq_none.mpr (by simp; omega)
      rw [hnone] at h
      exact absurd h (by simp)

theorem prevAt_cons (prev : Option String) (l : AuditLogRow) (rest : List AuditLogRow)
    (j : Nat) :
    prevAt prev (l :: rest) (j + 1) = prevAt (some l.hash) rest j := by
  unfold prevAt
  rcases Nat.eq_zero_or_pos j with rfl | hpos
  · simp
  · rw [if_neg (by omega), if_neg (Nat.pos_iff_ne_zero.mp hpos)]
    congr 1
    rw [show j + 1 - 1 = (j - 1) + 1 by omega]
    simp

theorem verify_set_mismatch (hm : String → String) (canon : AuditRecord → String) :
    ∀ (c : List AuditLogRow) (prev : Option String) (idx i : Nat) (e' : AuditLogRow),
      verifyFrom hm canon prev idx c = .ok (idx + c.length) →
      i < c.length →
      e'.hash ≠ hmac_hash hm canon (prevAt prev c i) e'.record →
      verifyFrom hm canon prev idx (c.set i e') =
        .broken (idx + i) e'.id (hmac_hash hm canon (prevAt prev c i) e'.record) e'.hash := by
  intro c
  induction c with
  | nil => intro prev idx i e' _ hi _; simp at hi
  | cons l rest ih =>
    intro prev idx i e' hok hi hne
    have hl : l.hash = hmac_hash hm canon prev l.record := by
      by_contra hl
      unfold verifyFrom at hok
      rw [if_pos (by simpa using hl)] at hok
      exact absurd hok (by simp)
    have hrest : verifyFrom hm canon (some l.hash) (idx + 1) rest =
        .ok ((idx + 1) + rest.length) := by
      unfold verifyFrom at hok
      rw [if_neg (by simpa using hl)] at hok
      rw [hok]
      congr 1
      simp
      omega
    cases i with
    | zero =>
      have hp : prevAt prev (l :: rest) 0 = prev := rfl
      rw [hp] at hne ⊢
      show verifyFrom hm canon prev idx (e' :: rest) = _
      unfold verifyFrom
      rw [if_pos (by simpa using hne)]
      simp
    | succ j =>
      have hp := prevAt_cons prev l rest j
      rw [hp] at hne ⊢
      show verifyFrom hm canon prev idx (l :: rest.set j e') = _
      unfold verifyFrom
      rw [if_neg (by simpa using hl)]
      rw [ih (some l.hash) (idx + 1) j e' hrest (by simpa using hi) hne]
      congr 1
      omega

/-- C1: for a tenant audit chain built by `write_audit` (every record carrying
the tenant id), (1) every entry's `hash` is
`HMAC(secret, prev_hash ++ canonical(record))` with `prev_hash` the previous
entry's hash (none for the first entry); (2) `verify_audit_chain` over the
intact chain returns ok with the full count; and (3) after flipping the
payload of the entry at index `i` (so that its re-derived hash no longer
matches the stored one), `verify_audit_chain` returns
`broken_at = i` with that entry's log id, the re-derived expected hash, and
the stored actual hash. -/
theorem claim_C1 (hm : String → String) (canon : AuditRecord → String)
    (entries : List (Nat × AuditRecord))
    (htenant : ∀ e ∈ entries, optTruthy e.2.tenant_id = true)
    (i : Nat) (hi : i < (build_audit_chain hm canon entries).length)
    (p' : Option String)
    (hdiff : (tamper_payload ((build_audit_chain hm canon entries).get ⟨i, hi⟩) p').hash ≠
        hmac_hash hm canon (chainPrev (build_audit_chain hm canon entries) i)
          (tamper_payload ((build_audit_chain hm canon entries).get ⟨i, hi⟩) p').record) :
    (∀ j row, (build_audit_chain hm canon entries).get? j = some row →
        row.prev_hash = chainPrev (build_audit_chain hm canon entries) j ∧
        row.hash = hmac_hash hm canon row.prev_hash row.record) ∧
    verify_audit_chain hm canon (build_audit_chain hm canon entries) =
      .ok (build_audit_chain hm canon entries).length ∧
    verify_audit_chain hm canon
        ((build_audit_chain hm canon entries).set i
          (tamper_payload ((build_audit_chain hm canon entries).get ⟨i, hi⟩) p')) =
      .broken i (tamper_payload ((build_audit_chain hm canon entries).get ⟨i, hi⟩) p').id
        (hmac_hash hm canon (chainPrev (build_audit_chain hm canon entries) i)
          (tamper_payload ((build_audit_chain hm canon entries).get ⟨i, hi⟩) p').record)
        (tamper_payload ((build_audit_chain hm canon entries).get ⟨i, hi⟩) p').hash := by
  refine ⟨build_invariant hm canon entries htenant, verify_build_ok hm canon entries htenant, ?_⟩
  have h := verify_set_mismatch hm canon (build_audit_chain hm canon entries) none 0 i
    (tamper_payload ((build_audit_chain hm canon entries).get ⟨i, hi⟩) p')
    (by simpa using verify_build_ok hm canon entries htenant) hi hdiff
  simpa [verify_audit_chain, prevAt, chainPrev] using h

def hmW : String → String := fun s => "H(" ++ s ++ ")"

def canonW : AuditRecord → String := fun r => r.action ++ "/" ++ (r.payload.getD "nil")

def entriesW : List (Nat × AuditRecord) :=
  [(1, ⟨"user", "alice", some "t1", "run.create", "run", some "r1", some "p1"⟩),
   (2, ⟨"user", "alice", some "t1", "tools.invoke", "tool", some "r1", some "p2"⟩)]

theorem c1wit_hi : 1 < (build_audit_chain hmW canonW entriesW).length := by decide

theorem claim_C1_witness :
    verify_audit_chain hmW canonW (build_audit_chain hmW canonW entriesW) =
      .ok (build_audit_chain hmW canonW entriesW).length ∧
    verify_audit_chain hmW canonW ((build_audit_chain hmW canonW entriesW).set 1
        (tamper_payload ((build_audit_chain hmW canonW entriesW).get ⟨1, c1wit_hi⟩)
          (some "evil"))) =
      .broken 1
        (tamper_payload ((build_audit_chain hmW canonW entriesW).get ⟨1, c1wit_hi⟩)
          (some "evil")).id
        (hmac_hash hmW canonW (chainPrev (build_audit_chain hmW canonW entriesW) 1)
          (tamper_payload ((build_audit_chain hmW canonW entriesW).get ⟨1, c1wit_hi⟩)
            (some "evil")).record)
        (tamper_payload ((build_audit_chain hmW canonW entriesW).get ⟨1, c1wit_hi⟩)
          (some "evil")).hash :=
  ⟨(claim_C1 hmW canonW entriesW (by decide) 1 c1wit_hi (some "evil") (by decide)).2.1,
   (claim_C1 hmW canonW entriesW (by decide) 1 c1wit_hi (some "evil") (by decide)).2.2⟩

/-! ### Precondition expression engine — gateway/app/policy_engine.py

Python values flowing through the evaluator (literals and `context`/`step`
entries) are modelled by `PyVal`; dicts are association lists with distinct
keys (in canonical key order, so positional equality agrees with Python's
key-insensitive dict equality).  Numbers compare across `bool`/`int`/`float`
as in Python (`True == 1`); floats are exact rationals, which is faithful
here because the evaluator only parses and compares them, never computes.

The tokenizer and evaluator loops are given explicit fuel: one unit per
Python loop iteration or recursive call.  A result of `Option.none` means the
loop is still running when the fuel ends; a state that recurs identically
consumes fuel forever, which models non-termination of the source. -/

namespace PolicyEngine

inductive PyVal
  | none
  | bool (b : Bool)
  | int (n : Int)
  | float (q : ℚ)
  | str (s : String)
  | list (l : List PyVal)
  | dict (l : List (String × PyVal))

def toNumQ : PyVal → Option ℚ
  | .bool b => some (if b then 1 else 0)
  | .int n => some (n : ℚ)
  | .float q => some q
  | _ => Option.none

mutual

def pyEq : PyVal → PyVal → Bool
  | .none, .none => true
  | a, b =>
    match toNumQ a, toNumQ b with
    | some x, some y => decide (x = y)
    | _, _ =>
      match a, b with
      | .str s, .str t => s = t
      | .list l1, .list l2 => pyEqList l1 l2
      | .dict d1, .dict d2 => pyEqPairs d1 d2
      | _, _ => false

def pyEqList : List PyVal → List PyVal → Bool
  | [], [] => true
  | a :: as', b :: bs' => pyEq a b && pyEqList as' bs'
  | _, _ => false

def pyEqPairs : List (String × PyVal) → List (String × PyVal) → Bool
  | [], [] => true
  | (k1, v1) :: as', (k2, v2) :: bs' => k1 = k2 && pyEq v1 v2 && pyEqPairs as' bs'
  | _, _ => false

end

def pyTruthy : PyVal → Bool
  | .none => false
  | .bool b => b
  | .int n => n ≠ 0
  | .float q => decide (q ≠ 0)
  | .str s => s ≠ ""
  | .list l => !l.isEmpty
  | .dict d => !d.isEmpty

mutual

def pyStrOf : PyVal → String
  | .none => "None"
  | .bool b => if b then "True" else "False"
  | .int n => toString n
  | .float q => toString q
  | .str s => s
  | .list l => "[" ++ pyStrList l ++ "]"
  | .dict d => "\x7b" ++ pyStrPairs d ++ "\x7d"

def pyStrList : List PyVal → String
  | [] => ""
  | [v] => pyStrOf v
  | v :: rest => pyStrOf v ++ ", " ++ pyStrList rest

def pyStrPairs : List (String × PyVal) → String
  | [] => ""
  | [(k, v)] => k ++ ": " ++ pyStrOf v
  | (k, v) :: rest => k ++ ": " ++ pyStrOf v ++ ", " ++ pyStrPairs rest

end

def isPrefixChars : List Char → List Char → Bool
  | [], _ => true
  | _ :: _, [] => false
  | a :: as', b :: bs' => a = b && isPrefixChars as' bs'

def isInfixChars (needle : List Char) : List Char → Bool
  | [] => needle.isEmpty
  | c :: rest => isPrefixChars needle (c :: rest) || isInfixChars needle rest

/-- Python's `needle in hay` on strings (substring containment). -/
def strContains (hay needle : String) : Bool :=
  isInfixChars needle.toList hay.toList

/-- Python's `left in right`: list membership by value equality, otherwise
substring containment of the `str()` renderings. -/
def pyIn (l r : PyVal) : Bool :=
  match r with
  | .list xs => xs.any (pyEq l)
  | _ => strContains (pyStrOf r) (pyStrOf l)

def dictGet (d : List (String × PyVal)) (k : String) : PyVal :=
  (d.lookup k).getD .none

def dictGetD (d : List (String × PyVal)) (k : String) (v0 : PyVal) : PyVal :=
  (d.lookup k).getD v0

def dictHas (d : List (String × PyVal)) (k : String) : Bool :=
  (d.lookup k).isSome

/-! #### `_tokenize` -/

def isIdentChar (c : Char) : Bool :=
  c.isAlphanum || c = '.' || c = '_'

def firstTwo (cs : List Char) : String :=
  String.mk (cs.take 2)

/-- The string-literal scan of `_tokenize`: consume up to and including the
closing quote, skipping the character after a backslash; if the string is
unterminated, consume to the end. -/
def scanStringBody (q : Char) : List Char → (List Char × List Char)
  | [] => ([], [])
  | c :: rest =>
    if c = q then ([q], rest)
    else if c = '\\' then
      match rest with
      | [] => ([c], [])
      | d :: rest' =>
        let r := scanStringBody q rest'
        (c :: d :: r.1, r.2)
    else
      let r := scanStringBody q rest
      (c :: r.1, r.2)

/-- The main tokenizer loop; one fuel unit per iteration of the Python
`while i < len(expr)` loop.  NOTE (faithful to the source): the 5-character
slice can never equal the 6-character string `"not in"`, so that branch is
dead; a 2-character slice `"in"` emits only the single character `expr[i]`;
and a character that fits no branch (e.g. `'-'`) produces an empty token
without advancing `i`, so the loop never terminates. -/
def tokenizeLoop : Nat → List Char → List String → Option (List String)
  | 0, cs, acc => if cs.isEmpty then some acc.reverse else Option.none
  | fuel + 1, cs, acc =>
    match cs with
    | [] => some acc.reverse
    | c :: rest =>
      if c.isWhitespace then tokenizeLoop fuel rest acc
      else if firstTwo cs = "==" ∨ firstTwo cs = "!=" ∨ firstTwo cs = "<=" ∨
          firstTwo cs = ">=" then
        tokenizeLoop fuel (cs.drop 2) (firstTwo cs :: acc)
      else if firstTwo cs = "in" then
        tokenizeLoop fuel rest (String.mk [c] :: acc)
      else if c = '=' ∨ c = '<' ∨ c = '>' ∨ c = '(' ∨ c = ')' ∨ c = '&' ∨ c = '|' then
        tokenizeLoop fuel rest (String.mk [c] :: acc)
      else if c = '\'' ∨ c = '"' then
        let r := scanStringBody c rest
        tokenizeLoop fuel r.2 (String.mk (c :: r.1) :: acc)
      else
        let ident := cs.takeWhile isIdentChar
        if ident.isEmpty then tokenizeLoop fuel cs ("" :: acc)
        else tokenizeLoop fuel (cs.drop ident.length) (String.mk ident :: acc)

def tokenize (fuel : Nat) (expr : String) : Option (List String) :=
  tokenizeLoop fuel expr.toList []

/-! #### `_parse_value` -/

def strLower (s : String) : String :=
  String.mk (s.toList.map Char.toLower)

def dropFirstLast (t : String) : String :=
  String.mk ((t.toList.drop 1).dropLast)

def strStartsQuote (t : String) : Bool :=
  match t.toList with
  | c :: _ => c = '\'' || c = '"'
  | [] => false

/-- `token.replace(".", "").replace("-", "").isdigit()`. -/
def numberCheck (t : String) : Bool :=
  let stripped := t.toList.filter (fun c => ¬(c = '.' ∨ c = '-'))
  !stripped.isEmpty && stripped.all Char.isDigit

def digitsToNat (cs : List Char) : Nat :=
  cs.foldl (fun acc c => 10 * acc + (c.toNat - '0'.toNat)) 0

def splitDotsChars (cs : List Char) : List (List Char) :=
  (splitDotsAux [] cs).map String.toList

/-- Python `int(t)` on a token whose characters are digits and `'-'`:
defined exactly when `'-'` occurs only in front of a non-empty digit run. -/
def parseInt (t : String) : Option Int :=
  match t.toList with
  | '-' :: rest =>
    if !rest.isEmpty && rest.all Char.isDigit then some (-(digitsToNat rest : Int))
    else Option.none
  | cs =>
    if !cs.isEmpty && cs.all Char.isDigit then some ((digitsToNat cs : Int))
    else Option.none

/-- Python `float(t)` on a token of digits, dots and `'-'`: defined exactly
when there is at most one dot, `'-'` occurs only in front, and at least one
digit is present. -/
def parseFloat (t : String) : Option ℚ :=
  let core : List Char → Option ℚ := fun cs =>
    if '-' ∈ cs then Option.none
    else
      match splitDotsChars cs with
      | [a, b] =>
        if a.isEmpty ∧ b.isEmpty then Option.none
        else some ((digitsToNat a : ℚ) + (digitsToNat b : ℚ) / ((10 : ℚ) ^ b.length))
      | [a] => if a.isEmpty then Option.none else some ((digitsToNat a : ℚ))
      | _ => Option.none
  match t.toList with
  | '-' :: rest => (core rest).map (fun q => -q)
  | cs => core cs

/-- `_parse_value`: string literal, number, boolean, then identifier lookup
in `context`/`step`; a number token that `int()`/`float()` rejects raises
(e.g. `"1.2.3"`), every other path returns a value (`None` on unknown). -/
def parse_value (token : String) (context step : List (String × PyVal)) :
    Except Unit PyVal :=
  if strStartsQuote token then .ok (.str (dropFirstLast token))
  else if numberCheck token then
    if '.' ∈ token.toList then
      match parseFloat token with
      | some q => .ok (.float q)
      | Option.none => .error ()
    else
      match parseInt token with
      | some n => .ok (.int n)
      | Option.none => .error ()
  else if strLower token = "true" ∨ strLower token = "false" then
    .ok (.bool (strLower token = "true"))
  else
    match splitDots token with
    | [ns, key] =>
      if ns = "context" then .ok (dictGet context key)
      else if ns = "step" then .ok (dictGet step key)
      else .ok .none
    | [t] =>
      if dictHas context t then .ok (dictGet context t)
      else .ok (dictGet step t)
    | _ => .ok .none

/-! #### `_eval_expr` -/

def pyBoolStr (b : Bool) : String :=
  if b then "True" else "False"

/-- Python `l[j]` with negative indexing; out of range raises. -/
def pyGetIdx (l : List String) (j : Int) : Option String :=
  if j ≥ 0 then l.get? j.toNat
  else
    let k := (l.length : Int) + j
    if k ≥ 0 then l.get? k.toNat else Option.none

/-- Python `l[:a]` where `a` may be negative. -/
def pySliceTo (l : List String) (a : Int) : List String :=
  if a ≥ 0 then l.take a.toNat else l.take ((l.length : Int) + a).toNat

/-- Python `l[a:b]` for non-negative bounds. -/
def pySlice (l : List String) (a b : Nat) : List String :=
  (l.take b).drop a

inductive ParenScan
  | trigger (start : Int) (close : Nat)
  | unbalanced
  | clean

/-- The parenthesis pass of `_eval_expr`: one sweep tracking the nesting
level (an integer, as unmatched `")"` drives it negative) and the index of
the last `"("` seen at level 0 (initially `-1`); the first `")"` that brings
the level back to 0 triggers. -/
def findParenAux : List String → Nat → Int → Int → ParenScan
  | [], _, level, _ => if level ≠ 0 then .unbalanced else .clean
  | t :: rest, i, level, start =>
    if t = "(" then
      findParenAux rest (i + 1) (level + 1) (if level = 0 then (i : Int) else start)
    else if t = ")" then
      if level - 1 = 0 then .trigger start i
      else findParenAux rest (i + 1) (level - 1) start
    else findParenAux rest (i + 1) level start

def findParen (tokens : List String) : ParenScan :=
  findParenAux tokens 0 0 (-1)

inductive CompScan
  | noOp
  | retFalse
  | evalErr
  | rewritten (newTokens : List String)

/-- The comparison pass of `_eval_expr`: scan for the first `==`/`!=`
(`not in` can never match — the tokenizer never emits an `"in"` token — but
both membership branches are kept), rewrite the three tokens to the result,
or report the guard `return False` / a `_parse_value` exception.  The scan
index is bounded by the token count, passed as structural fuel. -/
def findCompAux (context step : List (String × PyVal)) (tokens : List String) :
    Nat → Nat → CompScan
  | 0, _ => .noOp
  | fuel + 1, i =>
    if i < tokens.length then
      let tk := tokens.getD i ""
      if tk = "==" ∨ tk = "!=" then
        if i = 0 ∨ i = tokens.length - 1 then .retFalse
        else
          match parse_value (tokens.getD (i - 1) "") context step,
              parse_value (tokens.getD (i + 1) "") context step with
          | .ok l, .ok r =>
            let res := if tk = "==" then pyEq l r else !pyEq l r
            .rewritten (tokens.take (i - 1) ++ [pyBoolStr res] ++ tokens.drop (i + 2))
          | _, _ => .evalErr
      else if i < tokens.length - 1 ∧ tk = "not" ∧ tokens.getD (i + 1) "" = "in" then
        if i = 0 ∨ i ≥ tokens.length - 2 then .retFalse
        else
          match parse_value (tokens.getD (i - 1) "") context step,
              parse_value (tokens.getD (i + 2) "") context step with
          | .ok l, .ok r =>
            .rewritten (tokens.take (i - 1) ++ [pyBoolStr (!pyIn l r)] ++ tokens.drop (i + 3))
          | _, _ => .evalErr
      else if i < tokens.length - 1 ∧ tk = "in" then
        if i = 0 ∨ i = tokens.length - 1 then .retFalse
        else
          match parse_value (tokens.getD (i - 1) "") context step,
              parse_value (tokens.getD (i + 1) "") context step with
          | .ok l, .ok r =>
            .rewritten (tokens.take (i - 1) ++ [pyBoolStr (pyIn l r)] ++ tokens.drop (i + 2))
          | _, _ => .evalErr
      else findCompAux context step tokens fuel (i + 1)
    else .noOp

def findCompOp (context step : List (String × PyVal)) (tokens : List String) : CompScan :=
  findCompAux context step tokens tokens.length 0

def idxOfStr (t : String) : List String → Nat
  | [] => 0
  | s :: rest => if s = t then 0 else idxOfStr t rest + 1

/-- The `and`/`or`/single-token tail of `_eval_expr`.  Faithful quirks:
`tokens[idx - 1]` with `idx = 0` is Python negative indexing (the last
token); `tokens[idx + 1]` past the end raises; `and`/`or` are not recursive —
only the two operands around the first occurrence are consulted. -/
def afterComp (context step : List (String × PyVal)) (tokens : List String) :
    Except Unit Bool :=
  if tokens.contains "and" then
    let idx := idxOfStr "and" tokens
    match pyGetIdx tokens ((idx : Int) - 1), pyGetIdx tokens ((idx : Int) + 1) with
    | some lt, some rt =>
      match parse_value lt context step, parse_value rt context step with
      | .ok l, .ok r => .ok (pyTruthy l && pyTruthy r)
      | _, _ => .error ()
    | _, _ => .error ()
  else if tokens.contains "or" then
    let idx := idxOfStr "or" tokens
    match pyGetIdx tokens ((idx : Int) - 1), pyGetIdx tokens ((idx : Int) + 1) with
    | some lt, some rt =>
      match parse_value lt context step, parse_value rt context step with
      | .ok l, .ok r => .ok (pyTruthy l || pyTruthy r)
      | _, _ => .error ()
    | _, _ => .error ()
  else
    match tokens with
    | [t] =>
      match parse_value t context step with
      | .ok v => .ok (pyTruthy v)
      | .error e => .error e
    | _ => .ok false

/-- The comparison rewriting loop (`i = 0; continue` restarts); every rewrite
strictly shortens the token list. -/
def compLoop (context step : List (String × PyVal)) :
    Nat → List String → Option (Except Unit Bool)
  | 0, _ => Option.none
  | fuel + 1, tokens =>
    match findCompOp context step tokens with
    | .noOp => some (afterComp context step tokens)
    | .retFalse => some (.ok false)
    | .evalErr => some (.error ())
    | .rewritten nt => compLoop context step fuel nt

/-- `_eval_expr`: parenthesis reduction (recursing on the inner group and
then on the rewritten token list), then the comparison loop, then
`and`/`or`/single token. -/
def eval_expr (context step : List (String × PyVal)) :
    Nat → List String → Option (Except Unit Bool)
  | 0, _ => Option.none
  | fuel + 1, tokens =>
    if tokens.isEmpty then some (.ok false)
    else
      match findParen tokens with
      | .trigger a i =>
        match eval_expr context step fuel (pySlice tokens (a + 1).toNat i) with
        | Option.none => Option.none
        | some (.error e) => some (.error e)
        | some (.ok b) =>
          eval_expr context step fuel
            (pySliceTo tokens a ++ [pyBoolStr b] ++ tokens.drop (i + 1))
      | .unbalanced => some (.ok false)
      | .clean => compLoop context step (fuel + 1) tokens

/-! #### `decide` -/

structure PrecRule where
  whenExpr : Option String
  thenBranch : Option String
  stepName : Option String

/-- `prec.get("step")` is truthy and differs from `step.get("name", "")`. -/
def precSkips (prec_step : Option String) (step_name : PyVal) : Bool :=
  match prec_step with
  | Option.none => false
  | some s => s ≠ "" && !pyEq (.str s) step_name

/-- `decide` from gateway/app/policy_engine.py: first applicable rule whose
`when` evaluates truthy returns its `then`; a rule whose evaluation raises is
skipped by the `try`/`except`; no match returns `None`.  The outer
`Option.none` means the evaluation of some rule never terminated. -/
def decide (fuel : Nat) (preconditions : List PrecRule)
    (step context : List (String × PyVal)) : Option (Option String) :=
  match preconditions with
  | [] => some Option.none
  | p :: rest =>
    let step_name := dictGetD step "name" (.str "")
    if precSkips p.stepName step_name then decide fuel rest step context
    else
      match tokenize fuel (p.whenExpr.getD "") with
      | Option.none => Option.none
      | some tokens =>
        match eval_expr context step fuel tokens with
        | Option.none => Option.none
        | some (.error _) => decide fuel rest step context
        | some (.ok b) =>
          if b then some (some (p.thenBranch.getD ""))
          else decide fuel rest step context

end PolicyEngine

theorem tokenizeLoop_dash_stuck (fuel : Nat) (acc : List String) :
    PolicyEngine.tokenizeLoop fuel ['-'] acc = Option.none := by
  induction fuel generalizing acc with
  | zero => rfl
  | succ n ih =>
    rw [show PolicyEngine.tokenizeLoop (n + 1) ['-'] acc =
      PolicyEngine.tokenizeLoop n ['-'] ("" :: acc) from rfl]
    exact ih _

/-- C8 (code bug): `decide` is claimed to be a pure total function that never
throws, skipping unparseable rules.  Exceptions are indeed caught per rule —
the second conjunct shows a rule whose `when` is the invalid number literal
`"1.2.3"` (a `float()` `ValueError`) being skipped in favour of the next rule
— but the tokenizer never advances past a character that fits no token class:
on `when = "-"` it appends an empty token forever, so `decide` never returns,
for every fuel bound. -/
theorem claim_C8 :
    (∀ (fuel : Nat) (step context : List (String × PolicyEngine.PyVal)),
      PolicyEngine.decide fuel
          [⟨some "-", some "allow", Option.none⟩] step context = Option.none) ∧
    PolicyEngine.decide 32
        [⟨some "1.2.3", some "block", Option.none⟩,
         ⟨some "true", some "allow", Option.none⟩] [] [] = some (some "allow") := by
  constructor
  · intro fuel step context
    simp [PolicyEngine.decide, PolicyEngine.precSkips, PolicyEngine.tokenize,
      tokenizeLoop_dash_stuck]
  · rfl

/-! ### `policy_validate` — orchestrator/app/activities.py

The JSON-schema part is external (`_load_schema` reads a schema file from
disk; `jsonschema`'s validator produces the violation messages): `loadSchema`
returns, per tool, an optional validator yielding the error strings.  The
`policy_engine` import inside the precondition block is modelled as
succeeding (on `ImportError` the source would skip preconditions); the only
remaining failure is non-termination of `decide`, surfacing as
`Option.none`. -/

open PolicyEngine

structure ValResult where
  ok : Bool
  reasons : List String
  require_approval : Bool
deriving DecidableEq, Repr

structure Budgets where
  max_tokens_per_run : Option Int
  max_cost_per_run_usd : Option ℚ
deriving DecidableEq, Repr

structure PolicyDoc where
  tool_allowlist : List (String × List String)
  preconditions : List PrecRule
  budgets : Budgets

/-- The allowlist loop of `policy_validate`: some user role's allowlisted
tools contain the step tool (`allowlist.get(role, [])`). -/
def allowlist_allowed (allowlist : List (String × List String))
    (user_roles : List String) (tool : PyVal) : Bool :=
  user_roles.any (fun role => ((allowlist.lookup role).getD []).any
    (fun t => pyEq tool (.str t)))

/-- The step passes the allowlist gate when the allowlist is empty or some
role allows the tool (`if allowlist and not allowed` appends no reason). -/
def allowlist_gate_accepts (allowlist : List (String × List String))
    (user_roles : List String) (tool : PyVal) : Bool :=
  allowlist.isEmpty || allowlist_allowed allowlist user_roles tool

def policy_validate (loadSchema : PyVal → Option (PyVal → List String)) (fuel : Nat)
    (step : List (String × PyVal)) (policy : PolicyDoc) (user_roles : List String)
    (context : List (String × PyVal)) : Option ValResult :=
  let tool := dictGetD step "tool" (.str "")
  let reasons0 : List String :=
    if allowlist_gate_accepts policy.tool_allowlist user_roles tool
    then [] else ["tool not allowed for roles"]
  let reasons1 :=
    reasons0 ++ (match loadSchema tool with
      | some validator => validator (dictGetD step "input" (.dict []))
      | Option.none => [])
  if ¬policy.preconditions.isEmpty ∧ ¬context.isEmpty then
    match PolicyEngine.decide fuel policy.preconditions step context with
    | Option.none => Option.none
    | some d =>
      if d = some "block" then
        let reasons2 := reasons1 ++ ["precondition blocked"]
        some ⟨reasons2.isEmpty, reasons2, false⟩
      else if d = some "require_approval" then
        some ⟨true, [], true⟩
      else
        some ⟨reasons1.isEmpty, reasons1, false⟩
  else
    some ⟨reasons1.isEmpty, reasons1, false⟩

/-- C5: with an empty `tool_allowlist` every tool passes the allowlist gate;
with a non-empty one, the gate passes iff some user role's allowlist contains
the step tool; and a step that fails the gate and whose validation result is
not the `require_approval` early return has `ok = false` with
`"tool not allowed for roles"` among its reasons. -/
theorem claim_C5 (loadSchema : PyVal → Option (PyVal → List String)) (fuel : Nat)
    (step : List (String × PyVal)) (policy : PolicyDoc) (user_roles : List String)
    (context : List (String × PyVal)) :
    (policy.tool_allowlist = [] →
      allowlist_gate_accepts policy.tool_allowlist user_roles
        (dictGetD step "tool" (.str "")) = true) ∧
    (policy.tool_allowlist ≠ [] →
      (allowlist_gate_accepts policy.tool_allowlist user_roles
          (dictGetD step "tool" (.str "")) = true ↔
        ∃ r ∈ user_roles, ∃ t ∈ (policy.tool_allowlist.lookup r).getD [],
          pyEq (dictGetD step "tool" (.str "")) (.str t) = true)) ∧
    (∀ res, policy_validate loadSchema fuel step policy user_roles context = some res →
      allowlist_gate_accepts policy.tool_allowlist user_roles
        (dictGetD step "tool" (.str "")) = false →
      res.require_approval = false →
      res.ok = false ∧ "tool not allowed for roles" ∈ res.reasons) := by
  refine ⟨?_, ?_, ?_⟩
  · intro h
    simp [allowlist_gate_accepts, h]
  · intro h
    have hne : policy.tool_allowlist.isEmpty = false := by
      simpa [List.isEmpty_iff] using h
    simp [allowlist_gate_accepts, hne, allowlist_allowed, List.any_eq_true]
  · intro res hval hval' hreq
    simp only [policy_validate, hval', if_false] at hval
    by_cases hp : (¬policy.preconditions.isEmpty = true ∧ ¬context.isEmpty = true)
    · rw [if_pos hp] at hval
      cases hdec : PolicyEngine.decide fuel policy.preconditions step context with
      | none =>
        simp only [hdec] at hval
        exact Option.noConfusion hval
      | some d =>
        simp only [hdec] at hval
        by_cases hb : d = some "block"
        · rw [if_pos hb] at hval
          obtain rfl := Option.some.inj hval
          exact ⟨by simp, by simp⟩
        · by_cases hr : d = some "require_approval"
          · rw [if_neg hb, if_pos hr] at hval
            obtain rfl := Option.some.inj hval
            simp at hreq
          · rw [if_neg hb, if_neg hr] at hval
            obtain rfl := Option.some.inj hval
            exact ⟨by simp, by simp⟩
    · rw [if_neg hp] at hval
      obtain rfl := Option.some.inj hval
      exact ⟨by simp, by simp⟩

/-- C10 (implicit): with non-empty preconditions and context, a matching
`then = require_approval` precondition makes `policy_validate` return
`ok = true` with empty reasons and `require_approval = true`, discarding any
allowlist or schema rejection reasons already collected — it holds for every
`loadSchema` and every (in particular allowlist-rejecting) policy. -/
theorem claim_C10 (loadSchema : PyVal → Option (PyVal → List String)) (fuel : Nat)
    (step : List (String × PyVal)) (policy : PolicyDoc) (user_roles : List String)
    (context : List (String × PyVal))
    (hprec : policy.preconditions ≠ [])
    (hctx : context ≠ [])
    (hdec : PolicyEngine.decide fuel policy.preconditions step context =
      some (some "require_approval")) :
    policy_validate loadSchema fuel step policy user_roles context =
      some ⟨true, [], true⟩ := by
  simp [policy_validate, hdec, List.isEmpty_iff, hprec, hctx]

theorem claim_C5_witness :
    allowlist_gate_accepts ([] : List (String × List String)) ["Viewer"]
      (PyVal.str "x") = true ∧
    (allowlist_gate_accepts [("SRE", ["pagerduty.ack"])] ["SRE"]
        (PyVal.str "pagerduty.ack") = true ↔
      ∃ r ∈ ["SRE"],
        ∃ t ∈ ((([("SRE", ["pagerduty.ack"])] : List (String × List String)).lookup r).getD []),
          pyEq (PyVal.str "pagerduty.ack") (.str t) = true) ∧
    (⟨false, ["tool not allowed for roles"], false⟩ : ValResult).ok = false ∧
    "tool not allowed for roles" ∈
      (⟨false, ["tool not allowed for roles"], false⟩ : ValResult).reasons :=
  ⟨(claim_C5 (fun _ => Option.none) 0 [("tool", PyVal.str "x")]
      ⟨[], [], ⟨Option.none, Option.none⟩⟩ ["Viewer"] []).1 rfl,
   (claim_C5 (fun _ => Option.none) 0 [("tool", PyVal.str "pagerduty.ack")]
      ⟨[("SRE", ["pagerduty.ack"])], [], ⟨Option.none, Option.none⟩⟩ ["SRE"] []).2.1
     (by simp),
   (claim_C5 (fun _ => Option.none) 0 [("tool", PyVal.str "k8s.drain_node")]
      ⟨[("SRE", ["pagerduty.ack"])], [], ⟨Option.none, Option.none⟩⟩ ["Viewer"] []).2.2
     ⟨false, ["tool not allowed for roles"], false⟩ rfl rfl rfl⟩

def stepW10 : List (String × PyVal) :=
  [("tool", PyVal.str "k8s.drain_node"), ("name", PyVal.str "s1")]

def policyW10 : PolicyDoc :=
  ⟨[("SRE", ["pagerduty.ack"])],
   [⟨some "true", some "require_approval", Option.none⟩],
   ⟨Option.none, Option.none⟩⟩

def ctxW10 : List (String × PyVal) := [("env", PyVal.str "prod")]

theorem claim_C10_witness :
    allowlist_gate_accepts policyW10.tool_allowlist ["Viewer"]
      (PyVal.str "k8s.drain_node") = false ∧
    policy_validate (fun _ => Option.none) 32 stepW10 policyW10 ["Viewer"] ctxW10 =
      some ⟨true, [], true⟩ :=
  ⟨rfl,
   claim_C10 (fun _ => Option.none) 32 stepW10 policyW10 ["Viewer"] ctxW10
     (by simp [policyW10]) (by simp [ctxW10]) rfl⟩

/-! ### Execution engine — orchestrator/app/workflows.py `RunbookWorkflow.run`

The workflow's activity calls are external (Temporal dispatch): the
environment bundles `policy_validate`, `wait_for_approval`, `plan_step`,
`invoke_adapter` and `compensate` as functions; `record_step` calls are
collected as the event list (the `update_run_totals` call writes run
metrics, not step rows, and is not an event).  An adapter failure after the
retry policy is exhausted propagates (`raise`) and aborts the remaining
steps: the engine result flag is `false` and no later step is processed. -/

structure Usage where
  tokens_in : Int
  tokens_out : Int
  latency_ms : Int
  cost_usd : ℚ
deriving DecidableEq, Repr

structure Totals where
  tokens_in : Int
  tokens_out : Int
  latency_ms : Int
  cost_usd : ℚ
deriving DecidableEq, Repr

structure WStep where
  name : String
  tool : String
  requires_approval : Bool
  compensate : Option (String × List (String × PyVal))

structure PlanResult where
  tool : String
  args : List (String × PyVal)
  idempotencyKey : String
  decision : Option String
  reasons : List String
  usage : Option Usage

inductive ErrInfo
  | budget (msg : String)
  | policy (reasons : List String)
  | approval (msg : String)
  | brain (reasons : List String)
  | failMsg (msg : String)
  | compensationFailed (msg : String)
deriving DecidableEq, Repr

/-- A `record_step` activity call: the step name and the status/error fields
of the update (a compensation-failure update carries no status). -/
structure StepEvent where
  step_name : String
  status : Option String
  error : Option ErrInfo
deriving DecidableEq, Repr

structure EngineEnv where
  validate : WStep → ValResult
  needs_approval : List (String × String)
  wait_for_approval : Option String → Bool
  plan : WStep → PlanResult
  invoke : String → List (String × PyVal) → Bool → String →
    Except String (List (String × PyVal))
  compensateFn : String → List (String × PyVal) → Bool → String →
    Except String (List (String × PyVal))

def addUsage (totals : Totals) : Option Usage → Totals
  | some u => ⟨totals.tokens_in + u.tokens_in, totals.tokens_out + u.tokens_out,
      totals.latency_ms + u.latency_ms, totals.cost_usd + u.cost_usd⟩
  | Option.none => totals

/-- Plan, invoke, record, compensate-on-fail: the per-step tail after the
budget, policy and approval gates.  `Option.none` totals = the exception is
re-raised and the run aborts. -/
def step_tail (env : EngineEnv) (dry_run : Bool) (totals : Totals) (s : WStep) :
    List StepEvent × Option Totals :=
  let plan := env.plan s
  if plan.decision = some "block" then
    ([⟨s.name, some "skipped", some (.brain plan.reasons)⟩], some totals)
  else
    let runEv : StepEvent := ⟨s.name, some "running", Option.none⟩
    match env.invoke plan.tool plan.args dry_run plan.idempotencyKey with
    | .ok _ =>
      ([runEv, ⟨s.name, some "succeeded", Option.none⟩], some (addUsage totals plan.usage))
    | .error msg =>
      let failEv : StepEvent := ⟨s.name, some "failed", some (.failMsg msg)⟩
      match s.compensate with
      | Option.none => ([runEv, failEv], Option.none)
      | some comp =>
        match env.compensateFn comp.1 comp.2 dry_run plan.idempotencyKey with
        | .ok _ =>
          ([runEv, failEv, ⟨s.name, some "compensated", Option.none⟩], Option.none)
        | .error cmsg =>
          ([runEv, failEv, ⟨s.name, Option.none, some (.compensationFailed cmsg)⟩],
            Option.none)

/-- `max_tokens is not None and tokens_in + tokens_out >= max_tokens`. -/
def tokenBudgetHit (max_tokens : Option Int) (totals : Totals) : Bool :=
  match max_tokens with
  | some m => decide (totals.tokens_in + totals.tokens_out ≥ m)
  | Option.none => false

/-- `max_cost is not None and cost_usd >= max_cost`. -/
def costBudgetHit (max_cost : Option ℚ) (totals : Totals) : Bool :=
  match max_cost with
  | some c => decide (totals.cost_usd ≥ c)
  | Option.none => false

/-- One loop iteration of `RunbookWorkflow.run`: pending record, budget
gates (token first, then cost), policy gate, approval gate, then the tail. -/
def step_events (env : EngineEnv) (dry_run : Bool) (max_tokens : Option Int)
    (max_cost : Option ℚ) (totals : Totals) (s : WStep) :
    List StepEvent × Option Totals :=
  let pend : StepEvent := ⟨s.name, some "pending", Option.none⟩
  if tokenBudgetHit max_tokens totals then
    ([pend, ⟨s.name, some "skipped", some (.budget "max_tokens_per_run exceeded")⟩],
      some totals)
  else if costBudgetHit max_cost totals then
    ([pend, ⟨s.name, some "skipped", some (.budget "max_cost_per_run_usd exceeded")⟩],
      some totals)
  else if (env.validate s).ok = false then
    ([pend, ⟨s.name, some "skipped", some (.policy (env.validate s).reasons)⟩],
      some totals)
  else if s.requires_approval || (env.needs_approval.lookup s.name).isSome then
    if env.wait_for_approval (env.needs_approval.lookup s.name) = false then
      ([pend, ⟨s.name, some "skipped", some (.approval "timeout")⟩], some totals)
    else
      let t := step_tail env dry_run totals s
      (pend :: t.1, t.2)
  else
    let t := step_tail env dry_run totals s
    (pend :: t.1, t.2)

/-- The engine loop over the declared steps; the Bool is true when the loop
ran to completion (no re-raised adapter failure). -/
def run_steps (env : EngineEnv) (dry_run : Bool) (max_tokens : Option Int)
    (max_cost : Option ℚ) : Totals → List WStep → List StepEvent × Bool
  | _, [] => ([], true)
  | totals, s :: rest =>
    let r := step_events env dry_run max_tokens max_cost totals s
    match r.2 with
    | some totals' =>
      let rr := run_steps env dry_run max_tokens max_cost totals' rest
      (r.1 ++ rr.1, rr.2)
    | Option.none => (r.1, false)

/-- C4: a step reached with `max_tokens_per_run` set and accumulated
`tokens_in + tokens_out` at or above it is recorded pending then skipped with
the budget error naming `max_tokens_per_run`, and the engine continues with
the remaining declared steps under unchanged totals (same events, same
completion flag); analogously for `max_cost_per_run_usd` when the token gate
does not fire. -/
theorem claim_C4 (env : EngineEnv) (dry_run : Bool) (max_tokens : Option Int)
    (max_cost : Option ℚ) (totals : Totals) (s : WStep) (rest : List WStep) :
    (∀ m, max_tokens = some m → totals.tokens_in + totals.tokens_out ≥ m →
      run_steps env dry_run max_tokens max_cost totals (s :: rest) =
        (⟨s.name, some "pending", Option.none⟩ ::
         ⟨s.name, some "skipped", some (.budget "max_tokens_per_run exceeded")⟩ ::
           (run_steps env dry_run max_tokens max_cost totals rest).1,
         (run_steps env dry_run max_tokens max_cost totals rest).2)) ∧
    (∀ c, (match max_tokens with
        | some m => totals.tokens_in + totals.tokens_out < m
        | Option.none => True) →
      max_cost = some c → totals.cost_usd ≥ c →
      run_steps env dry_run max_tokens max_cost totals (s :: rest) =
        (⟨s.name, some "pending", Option.none⟩ ::
         ⟨s.name, some "skipped", some (.budget "max_cost_per_run_usd exceeded")⟩ ::
           (run_steps env dry_run max_tokens max_cost totals rest).1,
         (run_steps env dry_run max_tokens max_cost totals rest).2)) := by
  constructor
  · intro m hm hge
    subst hm
    have hse : step_events env dry_run (some m) max_cost totals s =
        ([⟨s.name, some "pending", Option.none⟩,
          ⟨s.name, some "skipped", some (.budget "max_tokens_per_run exceeded")⟩],
         some totals) := by
      unfold step_events
      rw [if_pos (show tokenBudgetHit (some m) totals = true from by
        simp [tokenBudgetHit, hge])]
    simp only [run_steps, hse]
    simp
  · intro c htok hc hge
    subst hc
    have hse : step_events env dry_run max_tokens (some c) totals s =
        ([⟨s.name, some "pending", Option.none⟩,
          ⟨s.name, some "skipped", some (.budget "max_cost_per_run_usd exceeded")⟩],
         some totals) := by
      unfold step_events
      rw [if_neg (show ¬ tokenBudgetHit max_tokens totals = true from by
        cases hmt : max_tokens with
        | none => simp [tokenBudgetHit]
        | some m =>
          rw [hmt] at htok
          simp only [tokenBudgetHit, decide_eq_true_eq]
          simpa using not_le_of_lt htok),
        if_pos (show costBudgetHit (some c) totals = true from by
          simp [costBudgetHit, hge])]
    simp only [run_steps, hse]
    simp

def envW : EngineEnv :=
  ⟨fun _ => ⟨true, [], false⟩, [], fun _ => true,
   fun s => ⟨s.tool, [], "key", Option.none, [], Option.none⟩,
   fun _ _ _ _ => .ok [], fun _ _ _ _ => .ok []⟩

def stepW4 : WStep := ⟨"restart", "k8s.restart_deploy", false, Option.none⟩

theorem claim_C4_witness :
    run_steps envW false (some 50) Option.none ⟨40, 20, 0, 0⟩ [stepW4] =
      (⟨"restart", some "pending", Option.none⟩ ::
       ⟨"restart", some "skipped", some (.budget "max_tokens_per_run exceeded")⟩ ::
         (run_steps envW false (some 50) Option.none ⟨40, 20, 0, 0⟩ []).1,
       (run_steps envW false (some 50) Option.none ⟨40, 20, 0, 0⟩ []).2) ∧
    run_steps envW false Option.none (some 5) ⟨0, 0, 0, 10⟩ [stepW4] =
      (⟨"restart", some "pending", Option.none⟩ ::
       ⟨"restart", some "skipped", some (.budget "max_cost_per_run_usd exceeded")⟩ ::
         (run_steps envW false Option.none (some 5) ⟨0, 0, 0, 10⟩ []).1,
       (run_steps envW false Option.none (some 5) ⟨0, 0, 0, 10⟩ []).2) :=
  ⟨(claim_C4 envW false (some 50) Option.none ⟨40, 20, 0, 0⟩ stepW4 []).1 50 rfl
      (by norm_num),
   (claim_C4 envW false Option.none (some 5) ⟨0, 0, 0, 10⟩ stepW4 []).2 5 trivial rfl
      (by norm_num)⟩

/-! #### Terminal-state persistence (C7)

`record_step` itself applies whatever status the update supplies, so the
step-level guard the claim describes does not exist (see the counterexample);
what does hold is that the engine, over a run whose step names are distinct,
never records a non-terminal status for a step after a terminal one. -/

def statusesFor (name : String) (evs : List StepEvent) : List String :=
  evs.filterMap (fun e => if e.step_name = name then e.status else Option.none)

/-- Terminal-ness of the stored status a `record_step` update produces
(unrecognised strings coerce to `pending`). -/
def statusUpdTerminal (s : String) : Bool :=
  isTerminal ((statusOfString s).getD .pending)

/-- No terminal status is ever followed (anywhere later) by a non-terminal
one. -/
def TerminalPersists (l : List String) : Prop :=
  l.Pairwise (fun a b => statusUpdTerminal a = true → statusUpdTerminal b = true)

theorem step_tail_name (env : EngineEnv) (dry_run : Bool) (totals : Totals) (s : WStep) :
    ∀ e ∈ (step_tail env dry_run totals s).1, e.step_name = s.name := by
  intro e he
  simp only [step_tail] at he
  split_ifs at he with hb
  · simp at he
    subst he
    rfl
  · cases hinv : env.invoke (env.plan s).tool (env.plan s).args dry_run
        (env.plan s).idempotencyKey with
    | ok v =>
      simp only [hinv] at he
      simp at he
      rcases he with rfl | rfl <;> rfl
    | error msg =>
      simp only [hinv] at he
      cases hc : s.compensate with
      | none =>
        simp only [hc] at he
        simp at he
        rcases he with rfl | rfl <;> rfl
      | some comp =>
        simp only [hc] at he
        cases hcf : env.compensateFn comp.1 comp.2 dry_run (env.plan s).idempotencyKey with
        | ok cv =>
          simp only [hcf] at he
          simp at he
          rcases he with rfl | rfl | rfl <;> rfl
        | error cmsg =>
          simp only [hcf] at he
          simp at he
          rcases he with rfl | rfl | rfl <;> rfl

theorem step_events_name (env : EngineEnv) (dry_run : Bool) (mT : Option Int)
    (mC : Option ℚ) (totals : Totals) (s : WStep) :
    ∀ e ∈ (step_events env dry_run mT mC totals s).1, e.step_name = s.name := by
  intro e he
  unfold step_events at he
  split_ifs at he <;>
    first
    | (simp at he; rcases he with rfl | rfl <;> rfl)
    | (simp only [List.mem_cons] at he
       rcases he with rfl | he
       · rfl
       · exact step_tail_name env dry_run totals s e he)

theorem run_steps_names (env : EngineEnv) (dry_run : Bool) (mT : Option Int)
    (mC : Option ℚ) :
    ∀ (steps : List WStep) (totals : Totals) (e : StepEvent),
      e ∈ (run_steps env dry_run mT mC totals steps).1 →
      e.step_name ∈ steps.map WStep.name := by
  intro steps
  induction steps with
  | nil => intro totals e he; simp [run_steps] at he
  | cons s rest ih =>
    intro totals e he
    simp only [run_steps] at he
    cases hr : (step_events env dry_run mT mC totals s).2 with
    | some t' =>
      rw [hr] at he
      simp only [List.mem_append] at he
      rcases he with he | he
      · simp [step_events_name env dry_run mT mC totals s e he]
      · simp only [List.map_cons, List.mem_cons]
        exact .inr (ih t' e he)
    | none =>
      rw [hr] at he
      simp [step_events_name env dry_run mT mC totals s e he]

theorem statusesFor_append (n : String) (a b : List StepEvent) :
    statusesFor n (a ++ b) = statusesFor n a ++ statusesFor n b := by
  simp [statusesFor, List.filterMap_append]

theorem statusesFor_eq_nil (n : String) (evs : List StepEvent)
    (h : ∀ e ∈ evs, e.step_name ≠ n) : statusesFor n evs = [] := by
  induction evs with
  | nil => rfl
  | cons e rest ih =>
    simp only [statusesFor, List.filterMap_cons]
    rw [if_neg (h e (List.mem_cons_self e rest))]
    exact ih (fun x hx => h x (List.mem_cons_of_mem e hx))

theorem statusesFor_cons_self (n : String) (st : String) (er : Option ErrInfo)
    (l : List StepEvent) :
    statusesFor n (⟨n, some st, er⟩ :: l) = st :: statusesFor n l := by
  simp [statusesFor]

theorem step_tail_statuses (env : EngineEnv) (dry_run : Bool) (totals : Totals) (s : WStep) :
    statusesFor s.name (step_tail env dry_run totals s).1 ∈
      [["skipped"], ["running", "succeeded"], ["running", "failed"],
       ["running", "failed", "compensated"]] := by
  simp only [step_tail]
  split_ifs with hb
  · simp [statusesFor]
  · cases hinv : env.invoke (env.plan s).tool (env.plan s).args dry_run
        (env.plan s).idempotencyKey with
    | ok v => simp [statusesFor, hinv]
    | error msg =>
      cases hc : s.compensate with
      | none => simp [statusesFor, hinv, hc]
      | some comp =>
        cases hcf : env.compensateFn comp.1 comp.2 dry_run (env.plan s).idempotencyKey with
        | ok cv => simp [statusesFor, hinv, hc, hcf]
        | error cmsg => simp [statusesFor, hinv, hc, hcf]

theorem step_events_statuses (env : EngineEnv) (dry_run : Bool) (mT : Option Int)
    (mC : Option ℚ) (totals : Totals) (s : WStep) :
    statusesFor s.name (step_events env dry_run mT mC totals s).1 ∈
      [["pending", "skipped"], ["pending", "running", "succeeded"],
       ["pending", "running", "failed"],
       ["pending", "running", "failed", "compensated"]] := by
  simp only [step_events]
  split_ifs
  · simp [statusesFor]
  · simp [statusesFor]
  · simp [statusesFor]
  · simp [statusesFor]
  all_goals
    have htail := step_tail_statuses env dry_run totals s
  all_goals
    simp only [List.mem_cons, List.not_mem_nil, or_false] at htail
  all_goals
    rw [statusesFor_cons_self]
  all_goals
    rcases htail with h | h | h | h <;> rw [h] <;> simp

/-- C7 (amended): the engine's per-step status updates, for a run with
distinct step names, never pass from a terminal status back to a
non-terminal one. -/
theorem claim_C7 (env : EngineEnv) (dry_run : Bool) (mT : Option Int) (mC : Option ℚ) :
    ∀ (steps : List WStep) (totals : Totals),
      (steps.map WStep.name).Nodup →
      ∀ name, TerminalPersists (statusesFor name (run_steps env dry_run mT mC totals steps).1) := by
  intro steps
  induction steps with
  | nil =>
    intro totals _ name
    exact List.Pairwise.nil
  | cons s rest ih =>
    intro totals hnodup name
    simp only [List.map_cons, List.nodup_cons] at hnodup
    simp only [run_steps]
    cases hr : (step_events env dry_run mT mC totals s).2 with
    | some t' =>
      rw [statusesFor_append]
      by_cases hn : name = s.name
      · subst hn
        have hrest : statusesFor s.name (run_steps env dry_run mT mC t' rest).1 = [] := by
          apply statusesFor_eq_nil
          intro e he hne
          exact hnodup.1 (hne ▸ run_steps_names env dry_run mT mC rest t' e he)
        rw [hrest, List.append_nil]
        have := step_events_statuses env dry_run mT mC totals s
        simp only [List.mem_cons, List.not_mem_nil, or_false] at this
        rcases this with h | h | h | h <;> rw [h] <;> (unfold TerminalPersists; decide)
      · have hself : statusesFor name (step_events env dry_run mT mC totals s).1 = [] := by
          apply statusesFor_eq_nil
          intro e he
          rw [step_events_name env dry_run mT mC totals s e he]
          exact fun hc => hn hc.symm
        rw [hself, List.nil_append]
        exact ih t' hnodup.2 name
    | none =>
      by_cases hn : name = s.name
      · subst hn
        have := step_events_statuses env dry_run mT mC totals s
        simp only [List.mem_cons, List.not_mem_nil, or_false] at this
        rcases this with h | h | h | h <;> rw [h] <;> (unfold TerminalPersists; decide)
      · rw [statusesFor_eq_nil]
        · exact List.Pairwise.nil
        · intro e he
          rw [step_events_name env dry_run mT mC totals s e he]
          exact fun hc => hn hc.symm

/-- Counterexample to C7 as stated: `record_step` has no terminal-state
guard — updating a succeeded step with status `"pending"` resets it to
pending (a non-terminal state). -/
theorem claim_C7_counterexample :
    isTerminal StepStatus.succeeded = true ∧
    (record_step (some ⟨"s1", .succeeded, some 1, some 2⟩) "s1"
      ⟨some "pending", Option.none, Option.none⟩ 10).status = .pending ∧
    isTerminal (record_step (some ⟨"s1", .succeeded, some 1, some 2⟩) "s1"
      ⟨some "pending", Option.none, Option.none⟩ 10).status = false := by
  decide

def stepW7a : WStep := ⟨"cordon", "k8s.cordon_node", false, Option.none⟩

def stepW7b : WStep := ⟨"drain", "k8s.drain_node", false, Option.none⟩

theorem claim_C7_witness :
    TerminalPersists (statusesFor "cordon"
      (run_steps envW false Option.none Option.none ⟨0, 0, 0, 0⟩ [stepW7a, stepW7b]).1) :=
  claim_C7 envW false Option.none Option.none [stepW7a, stepW7b] ⟨0, 0, 0, 0⟩
    (by decide) "cordon"

/-! ### Shadow evaluator — orchestrator/app/activities.py `compute_shadow`

The run's step rows (ordered by `started_at`) and the expected descriptors
from `run.metrics.expected.steps` are the inputs.  The scoring core —
agent/expected maps built by dict comprehension (later duplicates
overwrite, hence last-wins lookup), counts over the union of names, the
`max(len(agent), len(expected)) or 1` denominator and the weighted score —
is embedded; scores are exact rationals (the evaluator only divides counts
and sums fixed weights).  The `step_compare` diff list and the
policy-violation count are outside the claim and omitted. -/

structure ShadowAgentRow where
  name : String
  tool : String
  input : List (String × PyVal)
  status : StepStatus

inductive ExpectedEntry
  | strName (name : String)
  | obj (name : String) (tool : Option String) (input : Option (List (String × PyVal)))

structure AgentInfo where
  name : String
  tool : String
  input : List (String × PyVal)
  order_index : Nat

structure ExpectedInfo where
  name : String
  tool : Option String
  input : Option (List (String × PyVal))
  order_index : Nat

/-- `[... for idx, s in enumerate(steps) if s.status in {SUCCEEDED, RUNNING,
PENDING}]`: the order index is the position among all rows, assigned before
filtering. -/
def agentInfos (rows : List ShadowAgentRow) : List AgentInfo :=
  (rows.enum.filter (fun p =>
      decide (p.2.status ∈ [StepStatus.succeeded, .running, .pending]))).map
    (fun p => ⟨p.2.name, p.2.tool, p.2.input, p.1⟩)

def expectedInfos (expected : List ExpectedEntry) : List ExpectedInfo :=
  expected.enum.map (fun p =>
    match p.2 with
    | .strName n => ⟨n, Option.none, Option.none, p.1⟩
    | .obj n t i => ⟨n, t, i, p.1⟩)

def lookupLastAgent (agent : List AgentInfo) (n : String) : Option AgentInfo :=
  agent.reverse.find? (fun a => a.name == n)

def lookupLastExp (em : List ExpectedInfo) (n : String) : Option ExpectedInfo :=
  em.reverse.find? (fun e => e.name == n)

def unionNames (agent : List AgentInfo) (em : List ExpectedInfo) : List String :=
  ((agent.map (·.name)) ++ (em.map (·.name))).dedup

def pyOptEq : Option PyVal → Option PyVal → Bool
  | some a, some b => pyEq a b
  | Option.none, Option.none => true
  | _, _ => false

/-- The shallow symmetric diff of the two input dicts is empty: every key in
either has Python-equal values under `dict.get`. -/
def argsDiffEmpty (ai ei : List (String × PyVal)) : Bool :=
  (((ai.map Prod.fst) ++ (ei.map Prod.fst)).dedup).all
    (fun k => pyOptEq (ai.lookup k) (ei.lookup k))

structure ShadowScore where
  tool_matches : Nat
  args_matches : Nat
  order_matches : Nat
  total_steps : Nat
  match_score : ℚ
deriving DecidableEq, Repr

def compute_shadow (rows : List ShadowAgentRow) (expected : List ExpectedEntry) :
    ShadowScore :=
  let agent := agentInfos rows
  let em := expectedInfos expected
  let names := unionNames agent em
  let counts := names.foldl (fun acc n =>
    match lookupLastAgent agent n, lookupLastExp em n with
    | some a, some e =>
      (acc.1 + (if a.tool = e.tool.getD "" then 1 else 0),
       acc.2.1 + (if argsDiffEmpty a.input (e.input.getD []) then 1 else 0),
       acc.2.2 + (if a.order_index = e.order_index then 1 else 0))
    | _, _ => acc) ((0, 0, 0) : Nat × Nat × Nat)
  let total_steps := max (max agent.length expected.length) 1
  let tool_score : ℚ := if total_steps > 0 then (counts.1 : ℚ) / (total_steps : ℚ) else 0
  let args_score : ℚ := if total_steps > 0 then (counts.2.1 : ℚ) / (total_steps : ℚ) else 0
  let order_score : ℚ := if total_steps > 0 then (counts.2.2 : ℚ) / (total_steps : ℚ) else 0
  ⟨counts.1, counts.2.1, counts.2.2, total_steps,
   (0.5 : ℚ) * tool_score + (0.3 : ℚ) * args_score + (0.2 : ℚ) * order_score⟩

def rowsW9 : List ShadowAgentRow :=
  [⟨"s1", "pagerduty.ack", [("id", PyVal.str "X")], .succeeded⟩,
   ⟨"s2", "k8s.cordon_node", [("node", PyVal.str "n2")], .succeeded⟩]

def expectedW9 : List ExpectedEntry :=
  [.obj "s1" (some "pagerduty.ack") (some [("id", PyVal.str "X")]),
   .obj "s2" (some "k8s.drain_node") (some [("node", PyVal.str "n")])]

/-- C9: the shadow score is
`0.5·(tool_matches/N) + 0.3·(args_matches/N) + 0.2·(order_matches/N)` with
`N = max(|agent|, |expected|, 1)`, counts taken over the union of step
names; on two steps with tools matching 1 of 2, args 1 of 2 and order 2 of
2, the score is `0.6 = 3/5`. -/
theorem claim_C9 :
    (∀ (rows : List ShadowAgentRow) (expected : List ExpectedEntry),
      (compute_shadow rows expected).total_steps =
        max (max (agentInfos rows).length expected.length) 1 ∧
      (compute_shadow rows expected).match_score =
        (0.5 : ℚ) * ((compute_shadow rows expected).tool_matches /
            (compute_shadow rows expected).total_steps)
        + (0.3 : ℚ) * ((compute_shadow rows expected).args_matches /
            (compute_shadow rows expected).total_steps)
        + (0.2 : ℚ) * ((compute_shadow rows expected).order_matches /
            (compute_shadow rows expected).total_steps)) ∧
    (compute_shadow rowsW9 expectedW9).tool_matches = 1 ∧
    (compute_shadow rowsW9 expectedW9).args_matches = 1 ∧
    (compute_shadow rowsW9 expectedW9).order_matches = 2 ∧
    (compute_shadow rowsW9 expectedW9).total_steps = 2 ∧
    (compute_shadow rowsW9 expectedW9).match_score = 3/5 := by
  have hgen : ∀ (rows : List ShadowAgentRow) (expected : List ExpectedEntry),
      (compute_shadow rows expected).total_steps =
        max (max (agentInfos rows).length expected.length) 1 ∧
      (compute_shadow rows expected).match_score =
        (0.5 : ℚ) * ((compute_shadow rows expected).tool_matches /
            (compute_shadow rows expected).total_steps)
        + (0.3 : ℚ) * ((compute_shadow rows expected).args_matches /
            (compute_shadow rows expected).total_steps)
        + (0.2 : ℚ) * ((compute_shadow rows expected).order_matches /
            (compute_shadow rows expected).total_steps) := by
    intro rows expected
    refine ⟨rfl, ?_⟩
    have ht : 0 < max (max (agentInfos rows).length expected.length) 1 :=
      lt_of_lt_of_le one_pos (le_max_right _ _)
    simp only [compute_shadow, if_pos ht]
  have h1 : (compute_shadow rowsW9 expectedW9).tool_matches = 1 := by decide
  have h2 : (compute_shadow rowsW9 expectedW9).args_matches = 1 := by decide
  have h3 : (compute_shadow rowsW9 expectedW9).order_matches = 2 := by decide
  have h4 : (compute_shadow rowsW9 expectedW9).total_steps = 2 := by decide
  have hs := (hgen rowsW9 expectedW9).2
  rw [h1, h2, h3, h4] at hs
  norm_num at hs
  exact ⟨hgen, h1, h2, h3, h4, hs⟩

end AgentRunbooks
